import Mathlib

/-!
# Serene AI meditation app — verification of the audio decode/playback pipeline

A shallow embedding of the repository's core logic:

* the base64 binary decoder `decode` and the PCM-to-audio-buffer converter
  `decodeAudioData` (the repository imports both from `utils/audioUtils`,
  whose source is not part of the repository snapshot; they are modelled
  from the specification, see the doc comments below);
* the React component `App` (`src/App.tsx`): its state, the orchestration
  handler `handleSendMessage`, and the playback toggle `handlePlayPause`,
  embedded as explicit state-passing functions plus an event step function.

Machine reals: every sample produced by the converter is an integer in
[-32768, 32767] divided by 32768; all such values are exactly representable
in IEEE binary32/binary64, so the embedding uses `ℚ` without loss.
-/

namespace SereneAI

/-! ## Binary decoder (base64)

Modelled from the spec: `utils/audioUtils` is imported by `src/App.tsx`
(line 6) but its source file is not in the repository snapshot.  The spec
(§4.1) states: `decode(base64 : string) → RawByteBuffer`; output is the
exact decoded byte sequence, preserving order; fails with
`MalformedEncodingError` if the input contains characters outside the
base64 alphabet or has invalid padding; pure function.
Standard base64: alphabet `A-Z a-z 0-9 + /`, 4-character groups, final
group may end in one or two `=` padding characters. -/

/-- The only error of the binary decoder (spec §7 taxonomy). -/
inductive DecodeError where
  | malformedEncoding
deriving DecidableEq

/-- Index of a character in the standard base64 alphabet
`A`..`Z` (codes 65-90) ↦ 0-25, `a`..`z` (97-122) ↦ 26-51,
`0`..`9` (48-57) ↦ 52-61, `+` (43) ↦ 62, `/` (47) ↦ 63;
`none` for any character outside the alphabet. -/
def b64IndexOf (c : Char) : Option Nat :=
  let n := c.toNat
  if 65 ≤ n ∧ n ≤ 90 then some (n - 65)
  else if 97 ≤ n ∧ n ≤ 122 then some (n - 97 + 26)
  else if 48 ≤ n ∧ n ≤ 57 then some (n - 48 + 52)
  else if n = 43 then some 62
  else if n = 47 then some 63
  else none

/-- Character of the standard base64 alphabet at index `n < 64`. -/
def b64CharOf (n : Nat) : Char :=
  if n < 26 then Char.ofNat (65 + n)
  else if n < 52 then Char.ofNat (97 + (n - 26))
  else if n < 62 then Char.ofNat (48 + (n - 52))
  else if n = 62 then '+'
  else '/'

/-- Decode one 4-character base64 group into its 1, 2 or 3 bytes.
`none` on any character outside the alphabet or ill-placed padding. -/
def decodeQuad (a b c d : Char) : Option (List Nat) :=
  match b64IndexOf a, b64IndexOf b with
  | some i, some j =>
    if c = '=' then
      if d = '=' then some [i * 4 + j / 16] else none
    else
      match b64IndexOf c with
      | some k =>
        if d = '=' then some [i * 4 + j / 16, j % 16 * 16 + k / 4]
        else
          match b64IndexOf d with
          | some l => some [i * 4 + j / 16, j % 16 * 16 + k / 4, k % 4 * 64 + l]
          | none => none
      | none => none
  | _, _ => none

/-- Decode a base64 character sequence, 4 characters at a time.
Padding is only legal in the final group; a length that is not a
multiple of 4 is invalid padding. -/
def decodeChars : List Char → Option (List Nat)
  | [] => some []
  | a :: b :: c :: d :: rest =>
    match decodeQuad a b c d with
    | some bs =>
      if (c = '=' ∨ d = '=') ∧ rest ≠ [] then none
      else
        match decodeChars rest with
        | some more => some (bs ++ more)
        | none => none
    | none => none
  | _ => none

/-- Modelled from the spec (§4.1): the binary decoder
`decode(base64: string) → RawByteBuffer` of `utils/audioUtils`. -/
def decode (s : String) : Except DecodeError (List Nat) :=
  match decodeChars s.toList with
  | some bs => Except.ok bs
  | none => Except.error DecodeError.malformedEncoding

/-- `true` iff the character belongs to the base64 alphabet. -/
def isB64Char (c : Char) : Bool :=
  (b64IndexOf c).isSome

/-- Structural validity of a base64 character sequence: groups of four
characters from the alphabet, except that the final group may end in
`xx==` or `xxx=`.  This is the "characters in the alphabet and valid
padding" condition of spec §4.1, written as an independent checker. -/
def validB64Chars : List Char → Bool
  | [] => true
  | a :: b :: c :: d :: rest =>
    isB64Char a && isB64Char b &&
      ((isB64Char c && isB64Char d && validB64Chars rest) ||
       (rest.isEmpty && ((c == '=' && d == '=') || (isB64Char c && d == '='))))
  | _ => false

/-- A string is valid base64 iff its character list is. -/
def validB64 (s : String) : Bool :=
  validB64Chars s.toList

/-- base64-encode a byte list, three bytes to a 4-character group,
padding the final group with `=`. -/
def encodeChunks : List Nat → List Char
  | [] => []
  | [x] => [b64CharOf (x / 4), b64CharOf (x % 4 * 16), '=', '=']
  | [x, y] => [b64CharOf (x / 4), b64CharOf (x % 4 * 16 + y / 16), b64CharOf (y % 16 * 4), '=']
  | x :: y :: z :: rest =>
    b64CharOf (x / 4) :: b64CharOf (x % 4 * 16 + y / 16) ::
      b64CharOf (y % 16 * 4 + z / 64) :: b64CharOf (z % 64) :: encodeChunks rest

/-- base64 encoding of a byte sequence (standard alphabet, padded). -/
def encode (bytes : List Nat) : String :=
  String.mk (encodeChunks bytes)

/-! ### Basic alphabet lemmas -/

/-- Decoding inverts encoding on single alphabet indices. -/
theorem b64IndexOf_b64CharOf : ∀ n < 64, b64IndexOf (b64CharOf n) = some n := by
  decide

/-- Alphabet characters are never the padding character. -/
theorem b64CharOf_ne_pad : ∀ n < 64, b64CharOf n ≠ '=' := by
  decide

/-- Any index returned by `b64IndexOf` is below 64. -/
theorem b64IndexOf_lt (c : Char) (i : Nat) (h : b64IndexOf c = some i) : i < 64 := by
  simp only [b64IndexOf] at h
  split_ifs at h <;> simp_all <;> omega

/-- The padding character is not in the alphabet. -/
theorem isB64Char_pad : isB64Char '=' = false := by
  decide

/-- Decoding a full (unpadded) encoded group recovers its three bytes. -/
theorem decodeQuad_full (x y z : Nat) (hx : x < 256) (hy : y < 256) (hz : z < 256) :
    decodeQuad (b64CharOf (x / 4)) (b64CharOf (x % 4 * 16 + y / 16))
      (b64CharOf (y % 16 * 4 + z / 64)) (b64CharOf (z % 64)) = some [x, y, z] := by
  have h1 : x / 4 < 64 := by omega
  have h2 : x % 4 * 16 + y / 16 < 64 := by omega
  have h3 : y % 16 * 4 + z / 64 < 64 := by omega
  have h4 : z % 64 < 64 := by omega
  simp only [decodeQuad, b64IndexOf_b64CharOf _ h1, b64IndexOf_b64CharOf _ h2,
    b64IndexOf_b64CharOf _ h3, b64IndexOf_b64CharOf _ h4,
    if_neg (b64CharOf_ne_pad _ h3), if_neg (b64CharOf_ne_pad _ h4),
    Option.some.injEq, List.cons.injEq, and_true]
  omega

/-- Decoding a group padded with one `=` recovers its two bytes. -/
theorem decodeQuad_two (x y : Nat) (hx : x < 256) (hy : y < 256) :
    decodeQuad (b64CharOf (x / 4)) (b64CharOf (x % 4 * 16 + y / 16))
      (b64CharOf (y % 16 * 4)) '=' = some [x, y] := by
  have h1 : x / 4 < 64 := by omega
  have h2 : x % 4 * 16 + y / 16 < 64 := by omega
  have h3 : y % 16 * 4 < 64 := by omega
  simp only [decodeQuad, b64IndexOf_b64CharOf _ h1, b64IndexOf_b64CharOf _ h2,
    b64IndexOf_b64CharOf _ h3, if_neg (b64CharOf_ne_pad _ h3), if_pos rfl, if_true,
    Option.some.injEq, List.cons.injEq, and_true]
  omega

/-- Decoding a group padded with two `=` recovers its single byte. -/
theorem decodeQuad_one (x : Nat) (hx : x < 256) :
    decodeQuad (b64CharOf (x / 4)) (b64CharOf (x % 4 * 16)) '=' '=' = some [x] := by
  have h1 : x / 4 < 64 := by omega
  have h2 : x % 4 * 16 < 64 := by omega
  simp only [decodeQuad, b64IndexOf_b64CharOf _ h1, b64IndexOf_b64CharOf _ h2,
    if_pos rfl, if_true, Option.some.injEq, List.cons.injEq, and_true]
  omega

/-- Character-level roundtrip: decoding an encoded byte list recovers it. -/
theorem decodeChars_encodeChunks : ∀ bytes : List Nat, (∀ b ∈ bytes, b < 256) →
    decodeChars (encodeChunks bytes) = some bytes
  | [], _ => rfl
  | [x], h => by
    have hx : x < 256 := h x (by simp)
    simp only [encodeChunks, decodeChars, decodeQuad_one x hx]
    simp
  | [x, y], h => by
    have hx : x < 256 := h x (by simp)
    have hy : y < 256 := h y (by simp)
    simp only [encodeChunks, decodeChars, decodeQuad_two x y hx hy]
    simp
  | x :: y :: z :: rest, h => by
    have hx : x < 256 := h x (by simp)
    have hy : y < 256 := h y (by simp)
    have hz : z < 256 := h z (by simp)
    have ih := decodeChars_encodeChunks rest (fun b hb => h b (by simp [hb]))
    have h3 : y % 16 * 4 + z / 64 < 64 := by omega
    have h4 : z % 64 < 64 := by omega
    have hcond : ¬((b64CharOf (y % 16 * 4 + z / 64) = '=' ∨ b64CharOf (z % 64) = '=') ∧
        encodeChunks rest ≠ []) := by
      rintro ⟨hc | hc, -⟩
      · exact b64CharOf_ne_pad _ h3 hc
      · exact b64CharOf_ne_pad _ h4 hc
    simp only [encodeChunks, decodeChars, decodeQuad_full x y z hx hy hz, ih, if_neg hcond]
    simp

/-- String-level roundtrip: decoding an encoded byte list recovers it. -/
theorem decode_encode (bytes : List Nat) (h : ∀ b ∈ bytes, b < 256) :
    decode (encode bytes) = Except.ok bytes := by
  have hl : (encode bytes).toList = encodeChunks bytes := rfl
  simp only [decode, hl, decodeChars_encodeChunks bytes h]

/-- `b64IndexOf` of the padding character. -/
theorem b64IndexOf_pad : b64IndexOf '=' = none := by
  decide

/-- Every byte produced by decoding one group is below 256. -/
theorem decodeQuad_bytes_lt (a b c d : Char) (bs : List Nat)
    (h : decodeQuad a b c d = some bs) : ∀ x ∈ bs, x < 256 := by
  cases ha : b64IndexOf a with
  | none => simp [decodeQuad, ha] at h
  | some i =>
  cases hb : b64IndexOf b with
  | none => simp [decodeQuad, ha, hb] at h
  | some j =>
  have hi := b64IndexOf_lt _ _ ha
  have hj := b64IndexOf_lt _ _ hb
  by_cases hc : c = '='
  · by_cases hd : d = '='
    · simp only [decodeQuad, ha, hb, if_pos hc, if_pos hd, Option.some.injEq] at h
      subst h
      intro x hx
      simp only [List.mem_singleton] at hx
      omega
    · simp [decodeQuad, ha, hb, hc, hd] at h
  · cases hk : b64IndexOf c with
    | none => simp [decodeQuad, ha, hb, hc, hk] at h
    | some k =>
    have hkl := b64IndexOf_lt _ _ hk
    by_cases hd : d = '='
    · simp only [decodeQuad, ha, hb, if_neg hc, hk, if_pos hd, Option.some.injEq] at h
      subst h
      intro x hx
      simp only [List.mem_cons, List.mem_singleton, List.not_mem_nil, or_false] at hx
      rcases hx with rfl | rfl <;> omega
    · cases hl : b64IndexOf d with
      | none => simp [decodeQuad, ha, hb, hc, hk, hd, hl] at h
      | some l =>
        have hll := b64IndexOf_lt _ _ hl
        simp only [decodeQuad, ha, hb, if_neg hc, hk, if_neg hd, hl,
          Option.some.injEq] at h
        subst h
        intro x hx
        simp only [List.mem_cons, List.mem_singleton, List.not_mem_nil, or_false] at hx
        rcases hx with rfl | rfl | rfl <;> omega

/-- Every byte produced by the decoder is below 256. -/
theorem decodeChars_bytes_lt : ∀ cs bs, decodeChars cs = some bs → ∀ x ∈ bs, x < 256
  | [], bs, h => by
    simp only [decodeChars, Option.some.injEq] at h
    subst h
    intro x hx
    simp at hx
  | [_], _, h => by simp [decodeChars] at h
  | [_, _], _, h => by simp [decodeChars] at h
  | [_, _, _], _, h => by simp [decodeChars] at h
  | a :: b :: c :: d :: rest, bs, h => by
    cases hq : decodeQuad a b c d with
    | none => simp [decodeChars, hq] at h
    | some q =>
      have hqlt := decodeQuad_bytes_lt a b c d q hq
      by_cases hcond : (c = '=' ∨ d = '=') ∧ rest ≠ []
      · simp [decodeChars, hq, hcond] at h
      · cases hrest : decodeChars rest with
        | none => simp [decodeChars, hq, hcond, hrest] at h
        | some more =>
          have hmore := decodeChars_bytes_lt rest more hrest
          simp only [decodeChars, hq, if_neg hcond, hrest, Option.some.injEq] at h
          subst h
          intro x hx
          rcases List.mem_append.mp hx with hx | hx
          · exact hqlt x hx
          · exact hmore x hx

/-- The decoder succeeds exactly on character sequences the structural
validity checker accepts. -/
theorem decodeChars_isSome : ∀ cs : List Char, (decodeChars cs).isSome = validB64Chars cs
  | [] => rfl
  | [_] => rfl
  | [_, _] => rfl
  | [_, _, _] => rfl
  | a :: b :: c :: d :: rest => by
    have ih := decodeChars_isSome rest
    cases ha : b64IndexOf a with
    | none => simp [decodeChars, decodeQuad, validB64Chars, isB64Char, ha]
    | some i =>
    cases hb : b64IndexOf b with
    | none => simp [decodeChars, decodeQuad, validB64Chars, isB64Char, ha, hb]
    | some j =>
    by_cases hc : c = '='
    · subst hc
      by_cases hd : d = '='
      · subst hd
        cases rest with
        | nil => simp [decodeChars, decodeQuad, validB64Chars, isB64Char, ha, hb, b64IndexOf_pad]
        | cons r rs =>
          simp [decodeChars, decodeQuad, validB64Chars, isB64Char, ha, hb, b64IndexOf_pad]
      · simp [decodeChars, decodeQuad, validB64Chars, isB64Char, ha, hb, hd, b64IndexOf_pad]
    · cases hk : b64IndexOf c with
      | none =>
        have hcb : isB64Char c = false := by simp [isB64Char, hk]
        simp [decodeChars, decodeQuad, validB64Chars, isB64Char, ha, hb, hc, hk,
          Ne.symm hc, hcb]
      | some k =>
      by_cases hd : d = '='
      · subst hd
        cases rest with
        | nil =>
          simp [decodeChars, decodeQuad, validB64Chars, isB64Char, ha, hb, hc, hk,
            b64IndexOf_pad]
        | cons r rs =>
          simp [decodeChars, decodeQuad, validB64Chars, isB64Char, ha, hb, hc, hk,
            b64IndexOf_pad]
      · cases hl : b64IndexOf d with
        | none =>
          simp [decodeChars, decodeQuad, validB64Chars, isB64Char, ha, hb, hc, hk, hd, hl]
        | some l =>
          have hnp : ¬((c = '=' ∨ d = '=') ∧ rest ≠ []) := by
            rintro ⟨hcd | hcd, -⟩
            · exact hc hcd
            · exact hd hcd
          simp only [decodeChars, decodeQuad, validB64Chars, isB64Char, ha, hb,
            if_neg hc, hk, if_neg hd, hl, if_neg hnp, Option.isSome_some, Bool.true_and]
          cases hr : decodeChars rest with
          | none =>
            rw [hr] at ih
            simp only [Option.isSome_none] at ih
            simp [← ih, hd]
          | some more =>
            rw [hr] at ih
            simp only [Option.isSome_some] at ih
            simp [← ih, hd]

/-! ## PCM-to-AudioBuffer converter

Modelled from the spec: `decodeAudioData` is imported by `src/App.tsx`
(line 6) from `utils/audioUtils`, whose source is not in the repository
snapshot.  Spec §4.2: each consecutive pair of bytes is a signed 16-bit
little-endian integer (low byte + high byte `<<` 8, two's complement),
normalized by dividing by 32768.0; frame count is
`bytes.length / (2 * channelCount)` with truncating division, the
trailing incomplete frame dropped; samples are de-interleaved per
channel.  Samples are integers in [-32768, 32767] divided by 32768,
exactly representable in IEEE floats, so `ℚ` models them exactly. -/

/-- Sign-extend a 16-bit unsigned value from the two's-complement range. -/
def sext16 (u : Nat) : Int :=
  if u < 32768 then (u : Int) else (u : Int) - 65536

/-- The output object of the converter: sample rate, channel count and
one normalized sample sequence per channel. -/
structure AudioBufferModel where
  sampleRate : Nat
  numberOfChannels : Nat
  channelData : List (List ℚ)
deriving DecidableEq

/-- Consecutive byte pairs read as signed 16-bit little-endian integers
(low byte first); a trailing unpaired byte is dropped. -/
def bytesToInt16s : List Nat → List Int
  | lo :: hi :: rest => sext16 (lo + hi * 256) :: bytesToInt16s rest
  | _ => []

/-- Modelled from the spec (§4.2): the converter
`decodeAudioData(bytes, sampleRate, channelCount)` of `utils/audioUtils`
(the audio context argument only supplies buffer allocation and is
dropped).  Frame `f` of channel `ch` is sample number
`f * channelCount + ch` of the interleaved 16-bit stream, divided
by 32768. -/
def decodeAudioData (bytes : List Nat) (sampleRate : Nat) (channelCount : Nat) :
    AudioBufferModel :=
  let samples : List ℚ := (bytesToInt16s bytes).map (fun v : ℤ => (v : ℚ) / 32768)
  let frameCount := bytes.length / (2 * channelCount)
  { sampleRate := sampleRate
    numberOfChannels := channelCount
    channelData := (List.range channelCount).map (fun ch =>
      (List.range frameCount).map (fun f => samples.getD (f * channelCount + ch) 0)) }

/-- The 16-bit stream has half as many entries as the byte stream. -/
theorem bytesToInt16s_length : ∀ bytes : List Nat,
    (bytesToInt16s bytes).length = bytes.length / 2
  | [] => rfl
  | [_] => by simp [bytesToInt16s]
  | _ :: _ :: rest => by
    simp only [bytesToInt16s, List.length_cons, bytesToInt16s_length rest]
    omega

/-- Entry `f` of the 16-bit stream is the sign-extended little-endian
pair at bytes `2f`, `2f+1`. -/
theorem bytesToInt16s_getD : ∀ (bytes : List Nat) (f : Nat), 2 * f + 1 < bytes.length →
    (bytesToInt16s bytes).getD f 0 =
      sext16 (bytes.getD (2 * f) 0 + bytes.getD (2 * f + 1) 0 * 256)
  | [], _, h => by simp at h
  | [_], _, h => by simp at h
  | lo :: hi :: rest, 0, _ => by simp [bytesToInt16s]
  | lo :: hi :: rest, f + 1, h => by
    have hlen : 2 * f + 1 < rest.length := by
      simp only [List.length_cons] at h
      omega
    have ih := bytesToInt16s_getD rest f hlen
    have e1 : 2 * (f + 1) = 2 * f + 1 + 1 := by ring
    have e2 : 2 * (f + 1) + 1 = 2 * f + 1 + 1 + 1 := by ring
    simp only [bytesToInt16s, e1, e2, List.getD_cons_succ, ih]

/-- `getD` through a `map` over `List.range`. -/
theorem getD_range_map {α : Type} (g : Nat → α) (n f : Nat) (d : α) (h : f < n) :
    ((List.range n).map g).getD f d = g f := by
  rw [List.getD_eq_getElem?_getD, List.getElem?_map, List.getElem?_range h]
  rfl

/-- `getD` through a `map`, in bounds. -/
theorem getD_map_of_lt {α β : Type} (fn : α → β) (l : List α) (f : Nat) (d : β) (dd : α)
    (h : f < l.length) :
    (l.map fn).getD f d = fn (l.getD f dd) := by
  rw [List.getD_eq_getElem?_getD, List.getElem?_map, List.getElem?_eq_getElem h]
  simp [List.getElem?_eq_getElem h]

/-- Frame `f` of the single channel of a mono conversion is the
normalized sign-extended little-endian pair at bytes `2f`, `2f+1`. -/
theorem decodeAudioData_mono_sample (bytes : List Nat) (sr f : Nat)
    (h : 2 * f + 1 < bytes.length) :
    ((decodeAudioData bytes sr 1).channelData.getD 0 []).getD f 0 =
      (sext16 (bytes.getD (2 * f) 0 + bytes.getD (2 * f + 1) 0 * 256) : ℚ) / 32768 := by
  have hf : f < bytes.length / (2 * 1) := by omega
  have hf2 : f < (bytesToInt16s bytes).length := by
    rw [bytesToInt16s_length]
    omega
  simp only [decodeAudioData]
  rw [show List.range 1 = [0] from rfl]
  simp only [List.map_cons, List.map_nil, List.getD_cons_zero]
  simp only [getD_range_map _ _ _ _ hf, Nat.mul_one, Nat.add_zero,
    getD_map_of_lt _ _ _ _ (0 : Int) hf2, bytesToInt16s_getD bytes f h]

/-- **C1.** For every byte buffer, the PCM converter `decodeAudioData`
reconstructs each consecutive byte pair as a signed 16-bit little-endian
two's-complement integer and normalizes it by dividing by 32768; in
particular the pair `[0x00, 0x80]` (value -32768) yields a sample of
exactly -1, and the pair `[0xFF, 0x7F]` (value 32767) yields exactly
32767/32768. -/
theorem decodeAudioData_pcm_pairs :
    (∀ (bytes : List Nat) (sr f : Nat), 2 * f + 1 < bytes.length →
      ((decodeAudioData bytes sr 1).channelData.getD 0 []).getD f 0 =
        (sext16 (bytes.getD (2 * f) 0 + bytes.getD (2 * f + 1) 0 * 256) : ℚ) / 32768) ∧
    (decodeAudioData [0x00, 0x80] 24000 1).channelData = [[-1]] ∧
    (decodeAudioData [0xFF, 0x7F] 24000 1).channelData = [[(32767 : ℚ) / 32768]] := by
  refine ⟨decodeAudioData_mono_sample, ?_, ?_⟩
  · rw [show (decodeAudioData [0x00, 0x80] 24000 1).channelData =
        [[((-32768 : ℤ) : ℚ) / 32768]] from rfl]
    norm_num
  · rw [show (decodeAudioData [0xFF, 0x7F] 24000 1).channelData =
        [[((32767 : ℤ) : ℚ) / 32768]] from rfl]
    norm_num

/-- **C1 witness.** The general pair statement instantiated on the
buffer `[0x00, 0x80]` at frame 0. -/
theorem decodeAudioData_pcm_pairs_witness :
    ((decodeAudioData [0x00, 0x80] 24000 1).channelData.getD 0 []).getD 0 0 =
      (sext16 (0x00 + 0x80 * 256) : ℚ) / 32768 := by
  have h := decodeAudioData_pcm_pairs.1 [0x00, 0x80] 24000 0 (by decide)
  simpa using h

/-- **C3.** `decodeAudioData` never fails on a length mismatch: it
produces `bytes.length / (2 * channelCount)` frames per channel
(truncating division, the trailing incomplete frame dropped); a
zero-length buffer yields zero frames; an odd-length mono buffer of
length `2n+1` yields exactly `n` frames. -/
theorem decodeAudioData_frame_truncation :
    (∀ (bytes : List Nat) (sr ch : Nat),
      (decodeAudioData bytes sr ch).channelData.length = ch ∧
      ∀ chan ∈ (decodeAudioData bytes sr ch).channelData,
        chan.length = bytes.length / (2 * ch)) ∧
    (decodeAudioData [] 24000 1).channelData = [[]] ∧
    (∀ (bytes : List Nat) (sr n : Nat), bytes.length = 2 * n + 1 →
      ∀ chan ∈ (decodeAudioData bytes sr 1).channelData, chan.length = n) := by
  have hgen : ∀ (bytes : List Nat) (sr ch : Nat),
      (decodeAudioData bytes sr ch).channelData.length = ch ∧
      ∀ chan ∈ (decodeAudioData bytes sr ch).channelData,
        chan.length = bytes.length / (2 * ch) := by
    intro bytes sr ch
    constructor
    · simp [decodeAudioData]
    · intro chan hchan
      simp only [decodeAudioData, List.mem_map, List.mem_range] at hchan
      obtain ⟨c, -, rfl⟩ := hchan
      simp
  refine ⟨hgen, by simp [decodeAudioData], ?_⟩
  intro bytes sr n hn chan hchan
  have h := (hgen bytes sr 1).2 chan hchan
  rw [h, hn]
  omega

/-- **C3 witness.** The truncation statement instantiated on the
3-byte buffer `[1, 2, 3]` (n = 1) and on the general formula at
channel count 2. -/
theorem decodeAudioData_frame_truncation_witness :
    (∀ chan ∈ (decodeAudioData [1, 2, 3] 24000 1).channelData, chan.length = 1) ∧
    (decodeAudioData [1, 2, 3, 4, 5] 24000 2).channelData.length = 2 := by
  constructor
  · exact decodeAudioData_frame_truncation.2.2 [1, 2, 3] 24000 1 (by decide)
  · exact (decodeAudioData_frame_truncation.1 [1, 2, 3, 4, 5] 24000 2).1

/-- **C4.** `decode` fails with `MalformedEncodingError` exactly when the
input has characters outside the base64 alphabet or invalid padding
(the checker `validB64`); on valid input it returns the exact decoded
byte sequence in order, as witnessed by decoding any encoded sequence. -/
theorem decode_error_iff_malformed :
    (∀ s : String, decode s = Except.error DecodeError.malformedEncoding ↔ validB64 s = false) ∧
    (∀ bytes : List Nat, (∀ b ∈ bytes, b < 256) → decode (encode bytes) = Except.ok bytes) := by
  constructor
  · intro s
    have h := decodeChars_isSome s.toList
    unfold decode validB64
    cases hr : decodeChars s.toList with
    | none =>
      rw [hr] at h
      simp only [Option.isSome_none] at h
      simp only [String.toList] at h
      simp [← h]
    | some bs =>
      rw [hr] at h
      simp only [Option.isSome_some] at h
      simp only [String.toList] at h
      simp [← h]
  · exact decode_encode

/-- **C4 witness.** An invalid string is rejected, a valid encoding of
concrete bytes is decoded back exactly. -/
theorem decode_error_iff_malformed_witness :
    (decode "!a==" = Except.error DecodeError.malformedEncoding ↔ validB64 "!a==" = false) ∧
    decode (encode [0, 128, 255]) = Except.ok [0, 128, 255] :=
  ⟨decode_error_iff_malformed.1 "!a==",
   decode_error_iff_malformed.2 [0, 128, 255] (by decide)⟩

/-- **C5.** For every valid base64 string `s`, re-encoding and re-decoding
the decoded byte sequence round-trips: `decode (encode (decode s))`
equals `decode s`. -/
theorem decode_encode_decode_roundtrip (s : String) (bs : List Nat)
    (h : decode s = Except.ok bs) : decode (encode bs) = Except.ok bs := by
  have hlt : ∀ x ∈ bs, x < 256 := by
    unfold decode at h
    cases hr : decodeChars s.toList with
    | none => rw [hr] at h; cases h
    | some bs2 =>
      rw [hr] at h
      injection h with h
      subst h
      exact decodeChars_bytes_lt _ _ hr
  exact decode_encode bs hlt

/-- **C5 witness.** Round-trip through the concrete string `"/w=="`
(decoding to the byte `[255]`). -/
theorem decode_encode_decode_roundtrip_witness :
    decode (encode [255]) = Except.ok [255] :=
  decode_encode_decode_roundtrip "/w==" [255] (by rfl)

/-! ## The App component (src/App.tsx)

The component's React state and refs become an explicit record; the two
handlers become state-passing functions.  The outcomes of the awaited
provider calls are an explicit environment (`GenEnv`), so one invocation
of `handleSendMessage` is a function of the state and that environment.
Created `AudioBufferSourceNode`s are kept in a list with a flag telling
whether the node is still emitting audio; `audioSourceRef` is an index
into that list. -/

/-- Chat roles (src/types.ts). -/
inductive Role where
  | user
  | model
deriving DecidableEq

/-- A chat message (src/types.ts `ChatMessage`). -/
structure ChatMessage where
  role : Role
  content : String
deriving DecidableEq

/-- The three loading flags (src/types.ts `LoadingState`). -/
structure LoadingState where
  script : Bool
  image : Bool
  audio : Bool
deriving DecidableEq

/-- The audio output context, reduced to the one configuration option
the component sets (src/App.tsx line 34: `sampleRate: 24000`). -/
structure AudioCtx where
  sampleRate : Nat
deriving DecidableEq

/-- One created `AudioBufferSourceNode`: the buffer it was started with
and whether it is still emitting audio. -/
structure SourceNode where
  buffer : AudioBufferModel
  emitting : Bool
deriving DecidableEq

/-- The state of the `App` component (src/App.tsx lines 12-22). -/
structure AppState where
  chatInit : Bool
  messages : List ChatMessage
  userInput : String
  loading : LoadingState
  imageUrl : String
  audioBuffer : Option AudioBufferModel
  isPlaying : Bool
  audioContext : Option AudioCtx
  currentSource : Option Nat
  sources : List SourceNode
deriving DecidableEq

/-- The welcome message set by the mount effect (lines 40-43). -/
def welcomeMessage : ChatMessage :=
  ⟨Role.model, "Welcome to Serene AI. How can I help you find your calm today? You can ask for a meditation on a topic like \x22stress relief\x22 or \x22finding focus\x22."⟩

/-- Which constructors of the mount effect throw (lines 24-38): all
succeed; the audio-context constructor throws (chat already set); or
the provider/chat construction throws, in which case the context
constructor is never reached. -/
inductive InitOutcome where
  | full
  | ctxFailed
  | chatFailed
deriving DecidableEq

/-- The component state right after the mount effect (lines 24-44). -/
def initState (o : InitOutcome) : AppState where
  chatInit := match o with
    | InitOutcome.chatFailed => false
    | _ => true
  messages := [welcomeMessage]
  userInput := ""
  loading := ⟨false, false, false⟩
  imageUrl := ""
  audioBuffer := none
  isPlaying := false
  audioContext := match o with
    | InitOutcome.full => some ⟨24000⟩
    | _ => none
  currentSource := none
  sources := []

/-- The outcome of one `handlePlayPause` invocation: started a playback
session, stopped one, or did nothing. -/
inductive PlayAction where
  | didPlay
  | didStop
  | noop
deriving DecidableEq

/-- `audioSourceRef.current?.stop()` (line 102): the node the ref points
to stops emitting; a no-op when the ref is empty. -/
def stopCurrentSource (s : AppState) : List SourceNode :=
  match s.currentSource with
  | some i =>
    match s.sources[i]? with
    | some src => s.sources.set i { src with emitting := false }
    | none => s.sources
  | none => s.sources

/-- `handlePlayPause` (src/App.tsx lines 98-113). -/
def handlePlayPause (s : AppState) : AppState × PlayAction :=
  if s.audioContext = none ∨ s.audioBuffer = none then (s, PlayAction.noop)
  else
    if s.isPlaying then
      ({ s with sources := stopCurrentSource s, isPlaying := false }, PlayAction.didStop)
    else
      match s.audioBuffer with
      | some buf =>
        ({ s with sources := s.sources ++ [⟨buf, true⟩]
                  currentSource := some s.sources.length
                  isPlaying := true }, PlayAction.didPlay)
      | none => (s, PlayAction.noop)

/-- Outcomes of the awaited provider calls of one generation cycle:
`chat.sendMessage` either throws (`none`) or returns the script text;
the image-prompt, image and audio helpers catch internally and return
`null` on failure (src/services/geminiService). -/
structure GenEnv where
  scriptResult : Option String
  imagePrompt : Option String
  imageData : Option String
  audioData : Option String

/-- The chat message appended by the `catch` branch (line 92). -/
def errorChatMessage : ChatMessage :=
  ⟨Role.model, "Sorry, I encountered an error. Please try again."⟩

/-- The guard of `handleSendMessage` (line 53): empty trimmed input,
missing chat object, or any loading flag blocks the send.
`!userInput.trim()` holds exactly when every character of the input is
whitespace, which is how the trim test is embedded. -/
def sendBlocked (s : AppState) : Bool :=
  s.userInput.toList.all (fun c => c.isWhitespace) || !s.chatInit ||
    s.loading.script || s.loading.image || s.loading.audio

/-- The synchronous part of `handleSendMessage` before its first
`await` (lines 55-60): append the user message, clear the input, set
all three loading flags, clear the stored buffer, set `isPlaying`
to false. -/
def sendPhase1 (s : AppState) : AppState :=
  { s with messages := s.messages ++ [ChatMessage.mk Role.user s.userInput]
           userInput := ""
           loading := ⟨true, true, true⟩
           audioBuffer := none
           isPlaying := false }

/-- The `catch` branch (lines 90-95): append the generic error message
and reset every loading flag. -/
def sendCatch (s : AppState) : AppState :=
  { s with messages := s.messages ++ [errorChatMessage]
           loading := ⟨false, false, false⟩ }

/-- The rest of the cycle once the script text arrived (lines 66-89):
append the script message, clear the script flag; set the image URL
when both image calls produced data, clear the image flag; decode and
convert the audio when present and the context exists (a malformed
payload throws into the `catch` branch), clear the audio flag. -/
def sendAfterScript (env : GenEnv) (scriptText : String) (s : AppState) : AppState :=
  let s1 := { s with messages := s.messages ++ [ChatMessage.mk Role.model scriptText]
                     loading := { s.loading with script := false } }
  let s2 := match env.imagePrompt, env.imageData with
    | some _, some d => { s1 with imageUrl := "data:image/jpeg;base64," ++ d }
    | _, _ => s1
  let s3 := { s2 with loading := { s2.loading with image := false } }
  match env.audioData, s3.audioContext with
  | some a, some _ =>
    match decode a with
    | Except.ok bs =>
      { s3 with audioBuffer := some (decodeAudioData bs 24000 1)
                loading := { s3.loading with audio := false } }
    | Except.error _ => sendCatch s3
  | _, _ => { s3 with loading := { s3.loading with audio := false } }

/-- `handleSendMessage` (src/App.tsx lines 52-96) as a function of the
provider-call outcomes; the boolean records whether any provider call
was issued. -/
def handleSendMessage (env : GenEnv) (s : AppState) : AppState × Bool :=
  if sendBlocked s then (s, false)
  else
    let s1 := sendPhase1 s
    match env.scriptResult with
    | none => (sendCatch s1, true)
    | some t => (sendAfterScript env t s1, true)

/-- A source node finishing playback naturally: it stops emitting and
its `onended` callback (line 108) sets `isPlaying` to false. -/
def completeSource (i : Nat) (s : AppState) : AppState :=
  match s.sources[i]? with
  | some src =>
    if src.emitting then
      { s with sources := s.sources.set i { src with emitting := false }
               isPlaying := false }
    else s
  | none => s

/-- The events driving the component after mount. -/
inductive Event where
  | send (env : GenEnv)
  | playPause
  | sourceEnded (i : Nat)
  | setInput (t : String)

/-- One step of the component. -/
def step : Event → AppState → AppState
  | Event.send env, s => (handleSendMessage env s).1
  | Event.playPause, s => (handlePlayPause s).1
  | Event.sourceEnded i, s => completeSource i s
  | Event.setInput t, s => { s with userInput := t }

/-! ### Frame lemmas -/

/-- `sendAfterScript` never touches the audio context, the created
source nodes, the playback ref, or the playing flag. -/
theorem sendAfterScript_frame (env : GenEnv) (t : String) (s : AppState) :
    (sendAfterScript env t s).audioContext = s.audioContext ∧
    (sendAfterScript env t s).sources = s.sources ∧
    (sendAfterScript env t s).currentSource = s.currentSource ∧
    (sendAfterScript env t s).isPlaying = s.isPlaying := by
  unfold sendAfterScript sendCatch
  rcases env.imagePrompt with _ | p <;> rcases env.imageData with _ | d <;>
    rcases env.audioData with _ | a <;> rcases hctx : s.audioContext with _ | c <;>
    simp [hctx] <;> rcases decode a with e | bs <;> simp

/-- `handleSendMessage` never touches the audio context, the created
source nodes, or the playback ref. -/
theorem handleSendMessage_frame (env : GenEnv) (s : AppState) :
    (handleSendMessage env s).1.audioContext = s.audioContext ∧
    (handleSendMessage env s).1.sources = s.sources ∧
    (handleSendMessage env s).1.currentSource = s.currentSource := by
  unfold handleSendMessage
  by_cases hb : sendBlocked s
  · simp [hb]
  · simp only [hb, Bool.false_eq_true, if_false]
    cases env.scriptResult with
    | none => simp [sendCatch, sendPhase1]
    | some t =>
      have h := sendAfterScript_frame env t (sendPhase1 s)
      exact ⟨h.1, h.2.1, h.2.2.1⟩

/-- `handlePlayPause` never touches the audio context or the stored
buffer. -/
theorem handlePlayPause_frame (s : AppState) :
    (handlePlayPause s).1.audioContext = s.audioContext ∧
    (handlePlayPause s).1.audioBuffer = s.audioBuffer := by
  unfold handlePlayPause
  split
  · exact ⟨rfl, rfl⟩
  · split
    · exact ⟨rfl, rfl⟩
    · split
      · exact ⟨rfl, rfl⟩
      · exact ⟨rfl, rfl⟩

/-- `completeSource` never touches the audio context, the stored buffer,
or the playback ref. -/
theorem completeSource_frame (i : Nat) (s : AppState) :
    (completeSource i s).audioContext = s.audioContext ∧
    (completeSource i s).audioBuffer = s.audioBuffer ∧
    (completeSource i s).currentSource = s.currentSource := by
  unfold completeSource
  split
  · split
    · exact ⟨rfl, rfl, rfl⟩
    · exact ⟨rfl, rfl, rfl⟩
  · exact ⟨rfl, rfl, rfl⟩

/-- **C8.** The audio output context is created exactly once, at
startup, with a fixed sample rate of 24000 Hz: the mount effect either
sets a 24000 Hz context or (on an initialization failure) leaves none,
and no event thereafter replaces the `audioContext` field. -/
theorem audioContext_created_once :
    ((initState InitOutcome.full).audioContext = some ⟨24000⟩) ∧
    (∀ o : InitOutcome, (initState o).audioContext = some ⟨24000⟩ ∨
      (initState o).audioContext = none) ∧
    (∀ (e : Event) (s : AppState), (step e s).audioContext = s.audioContext) := by
  refine ⟨rfl, fun o => ?_, fun e s => ?_⟩
  · cases o
    · exact Or.inl rfl
    · exact Or.inr rfl
    · exact Or.inr rfl
  · cases e with
    | send env => exact (handleSendMessage_frame env s).1
    | playPause => exact (handlePlayPause_frame s).1
    | sourceEnded i => exact (completeSource_frame i s).1
    | setInput t => rfl

/-- **C9.** When no `AudioBuffer` has been produced yet or the audio
context was never initialized, `handlePlayPause` returns immediately:
the state is unchanged and neither play nor stop occurs. -/
theorem handlePlayPause_null_guard (s : AppState)
    (h : s.audioBuffer = none ∨ s.audioContext = none) :
    handlePlayPause s = (s, PlayAction.noop) := by
  rcases h with h | h <;> simp [handlePlayPause, h]

/-- **C9 witness.** The freshly mounted state has no buffer, so the
toggle does nothing there. -/
theorem handlePlayPause_null_guard_witness :
    handlePlayPause (initState InitOutcome.full) =
      (initState InitOutcome.full, PlayAction.noop) :=
  handlePlayPause_null_guard (initState InitOutcome.full) (Or.inl rfl)

/-- **C7.** While any of the three loading flags is set, a new send is
blocked entirely: `handleSendMessage` leaves the state unchanged and
issues no provider call. -/
theorem send_blocked_while_loading (env : GenEnv) (s : AppState)
    (h : s.loading.script = true ∨ s.loading.image = true ∨ s.loading.audio = true) :
    handleSendMessage env s = (s, false) := by
  have hb : sendBlocked s = true := by
    unfold sendBlocked
    rcases h with h | h | h <;> simp [h]
  simp [handleSendMessage, hb]

/-- **C7 witness.** A state with all flags set (as right after a send
begins) blocks the next send. -/
theorem send_blocked_while_loading_witness :
    handleSendMessage ⟨none, none, none, none⟩
        { initState InitOutcome.full with loading := ⟨true, true, true⟩ } =
      ({ initState InitOutcome.full with loading := ⟨true, true, true⟩ }, false) :=
  send_blocked_while_loading ⟨none, none, none, none⟩
    { initState InitOutcome.full with loading := ⟨true, true, true⟩ } (Or.inl rfl)

/-- **C6.** On any provider-call failure that reaches the `catch` branch
— the script call throwing, or a later malformed audio payload — exactly
one generic model message is appended after what had succeeded, and all
three loading flags are reset to false. -/
theorem send_failure_single_error_message :
    (∀ (env : GenEnv) (s : AppState), sendBlocked s = false → env.scriptResult = none →
      (handleSendMessage env s).1.messages =
        s.messages ++ [ChatMessage.mk Role.user s.userInput, errorChatMessage] ∧
      (handleSendMessage env s).1.loading = ⟨false, false, false⟩) ∧
    (∀ (env : GenEnv) (s : AppState) (t a : String) (e : DecodeError),
      sendBlocked s = false → env.scriptResult = some t → env.audioData = some a →
      s.audioContext ≠ none → decode a = Except.error e →
      (handleSendMessage env s).1.messages =
        s.messages ++ [ChatMessage.mk Role.user s.userInput,
          ChatMessage.mk Role.model t, errorChatMessage] ∧
      (handleSendMessage env s).1.loading = ⟨false, false, false⟩) := by
  constructor
  · intro env s hb hscript
    simp [handleSendMessage, hb, hscript, sendCatch, sendPhase1]
  · intro env s t a e hb hscript haudio hctx hdec
    obtain ⟨c, hc⟩ : ∃ c, s.audioContext = some c := by
      cases h : s.audioContext
      · exact absurd h hctx
      · exact ⟨_, rfl⟩
    rcases hip : env.imagePrompt with _ | p <;> rcases hid : env.imageData with _ | d <;>
      simp [handleSendMessage, hb, hscript, sendAfterScript, sendCatch, sendPhase1,
        haudio, hc, hdec, hip, hid]

/-- **C6 witness.** A failing script call from the ready state appends
the user message and the single generic error message, with all flags
reset. -/
theorem send_failure_single_error_message_witness :
    (handleSendMessage ⟨none, none, none, none⟩
        { initState InitOutcome.full with userInput := "hi" }).1.messages =
      [welcomeMessage] ++ [ChatMessage.mk Role.user "hi", errorChatMessage] ∧
    (handleSendMessage ⟨none, none, none, none⟩
        { initState InitOutcome.full with userInput := "hi" }).1.loading =
      ⟨false, false, false⟩ :=
  send_failure_single_error_message.1 ⟨none, none, none, none⟩
    { initState InitOutcome.full with userInput := "hi" } (by decide) rfl

/-- A concrete mono audio buffer used by witness states. -/
def sampleBuffer : AudioBufferModel :=
  ⟨24000, 1, [[-1]]⟩

/-- A state with one emitting source node, mid-playback, ready to send:
input typed, chat live, no loading flag set. -/
def sendTestState : AppState :=
  { initState InitOutcome.full with
      userInput := "hi"
      audioBuffer := some sampleBuffer
      isPlaying := true
      currentSource := some 0
      sources := [⟨sampleBuffer, true⟩] }

/-- **C10.** When its guard passes, `handleSendMessage` clears the
stored buffer and the playing flag in its synchronous pre-await part
(`sendPhase1`), but never calls `stop()` on a source node: a node
emitting at send time is still emitting in the pre-await state — where
the controller already reads Idle — and after the full cycle. -/
theorem send_clears_buffer_never_stops_source :
    ∀ (env : GenEnv) (s : AppState) (i : Nat) (src : SourceNode),
      sendBlocked s = false → s.sources[i]? = some src → src.emitting = true →
      (sendPhase1 s).audioBuffer = none ∧
      (sendPhase1 s).isPlaying = false ∧
      (sendPhase1 s).sources[i]? = some src ∧
      (handleSendMessage env s).1.sources[i]? = some src ∧
      (handleSendMessage env s).1 =
        (match env.scriptResult with
         | none => sendCatch (sendPhase1 s)
         | some t => sendAfterScript env t (sendPhase1 s)) := by
  intro env s i src hb hsrc hemit
  refine ⟨rfl, rfl, hsrc, ?_, ?_⟩
  · rw [(handleSendMessage_frame env s).2.1]
    exact hsrc
  · simp only [handleSendMessage, hb, Bool.false_eq_true, if_false]
    cases env.scriptResult <;> rfl

/-- **C10 witness.** From `sendTestState` (emitting source node 0), a
send with a failing script call leaves node 0 emitting while the
controller state reads Idle. -/
theorem send_clears_buffer_never_stops_source_witness :
    (sendPhase1 sendTestState).audioBuffer = none ∧
    (sendPhase1 sendTestState).isPlaying = false ∧
    (sendPhase1 sendTestState).sources[0]? = some ⟨sampleBuffer, true⟩ ∧
    (handleSendMessage ⟨none, none, none, none⟩ sendTestState).1.sources[0]? =
      some ⟨sampleBuffer, true⟩ ∧
    (handleSendMessage ⟨none, none, none, none⟩ sendTestState).1 =
      sendCatch (sendPhase1 sendTestState) :=
  send_clears_buffer_never_stops_source ⟨none, none, none, none⟩ sendTestState 0
    ⟨sampleBuffer, true⟩ (by decide) rfl rfl

/-! ### The playback controller state machine -/

/-- An index with a `some` entry is in bounds. -/
theorem lt_length_of_getElem?_some {l : List SourceNode} {i : Nat} {a : SourceNode}
    (h : l[i]? = some a) : i < l.length := by
  by_contra hc
  rw [List.getElem?_eq_none (by omega)] at h
  cases h

/-- Controller invariant: every emitting source node is the one the
playback ref points to, in a state that reads Playing. -/
def sessionInv (s : AppState) : Prop :=
  ∀ i src, s.sources[i]? = some src → src.emitting = true →
    s.isPlaying = true ∧ s.currentSource = some i

/-- With context and buffer present, a toggle from Playing stops the
current source and reads Idle. -/
theorem handlePlayPause_stop (s : AppState) (c : AudioCtx) (buf : AudioBufferModel)
    (hc : s.audioContext = some c) (hb : s.audioBuffer = some buf)
    (hp : s.isPlaying = true) :
    handlePlayPause s =
      ({ s with sources := stopCurrentSource s, isPlaying := false },
        PlayAction.didStop) := by
  simp [handlePlayPause, hc, hb, hp]

/-- With context and buffer present, a toggle from Idle starts a new
source node bound to the stored buffer. -/
theorem handlePlayPause_play (s : AppState) (c : AudioCtx) (buf : AudioBufferModel)
    (hc : s.audioContext = some c) (hb : s.audioBuffer = some buf)
    (hp : s.isPlaying = false) :
    handlePlayPause s =
      ({ s with sources := s.sources ++ [⟨buf, true⟩]
                currentSource := some s.sources.length
                isPlaying := true }, PlayAction.didPlay) := by
  simp [handlePlayPause, hc, hb, hp]

/-- The toggle preserves the controller invariant. -/
theorem sessionInv_playPause (s : AppState) (h : sessionInv s) :
    sessionInv (step Event.playPause s) := by
  show sessionInv (handlePlayPause s).1
  by_cases hg : s.audioContext = none ∨ s.audioBuffer = none
  · rcases hg with hg | hg <;> simp [handlePlayPause, hg] <;> exact h
  · push_neg at hg
    obtain ⟨c, hc⟩ : ∃ c, s.audioContext = some c :=
      Option.ne_none_iff_exists'.mp hg.1
    obtain ⟨buf, hb⟩ : ∃ b, s.audioBuffer = some b :=
      Option.ne_none_iff_exists'.mp hg.2
    cases hp : s.isPlaying with
    | true =>
      rw [handlePlayPause_stop s c buf hc hb hp]
      intro i src hget hemit
      exfalso
      simp only [stopCurrentSource] at hget
      cases hcur : s.currentSource with
      | none =>
        simp only [hcur] at hget
        have := (h i src hget hemit).2
        rw [hcur] at this
        cases this
      | some cur =>
        simp only [hcur] at hget
        cases hcs : s.sources[cur]? with
        | none =>
          simp only [hcs] at hget
          have := (h i src hget hemit).2
          rw [hcur] at this
          injection this with hic
          subst hic
          rw [hget] at hcs
          cases hcs
        | some csrc =>
          simp only [hcs] at hget
          by_cases hic : cur = i
          · subst hic
            rw [List.getElem?_set_eq_of_lt _ (lt_length_of_getElem?_some hcs)] at hget
            injection hget with hsrc
            rw [← hsrc] at hemit
            simp at hemit
          · rw [List.getElem?_set_ne hic] at hget
            have := (h i src hget hemit).2
            rw [hcur] at this
            injection this with hic2
            exact hic hic2
    | false =>
      rw [handlePlayPause_play s c buf hc hb hp]
      intro i src hget hemit
      rcases Nat.lt_trichotomy i s.sources.length with hlt | heq | hgt
      · rw [List.getElem?_append_left hlt] at hget
        have := (h i src hget hemit).1
        rw [hp] at this
        cases this
      · subst heq
        simp only [List.getElem?_concat_length] at hget
        exact ⟨rfl, rfl⟩
      · rw [List.getElem?_append_right (by omega)] at hget
        rw [List.getElem?_eq_none (by simp; omega)] at hget
        cases hget

/-- Natural completion of a source preserves the controller invariant. -/
theorem sessionInv_sourceEnded (s : AppState) (i : Nat) (h : sessionInv s) :
    sessionInv (step (Event.sourceEnded i) s) := by
  show sessionInv (completeSource i s)
  unfold completeSource
  cases hsi : s.sources[i]? with
  | none => exact h
  | some src =>
    cases he : src.emitting with
    | false =>
      simp only [he, Bool.false_eq_true, if_false]
      exact h
    | true =>
      simp only [he, if_true]
      intro j srcj hgj hej
      exfalso
      by_cases hij : i = j
      · subst hij
        rw [List.getElem?_set_eq_of_lt _ (lt_length_of_getElem?_some hsi)] at hgj
        injection hgj with hsrc
        rw [← hsrc] at hej
        simp at hej
      · rw [List.getElem?_set_ne hij] at hgj
        have h1 := (h i src hsi he).2
        have h2 := (h j srcj hgj hej).2
        rw [h1] at h2
        injection h2 with h2
        exact hij h2

/-- **C2.** With a buffer produced and the context live, every
invocation of the play/pause toggle performs exactly one of play or
stop — stop exactly when a session is active, play (of the stored
buffer) exactly when not — so two successive invocations go
Playing → Idle → Playing; and along any sequence of toggle and
natural-completion events the controller invariant is preserved, under
which no two source nodes are ever emitting simultaneously. -/
theorem togglePlayPause_exactly_one :
    (∀ (s : AppState) (c : AudioCtx) (buf : AudioBufferModel),
      s.audioContext = some c → s.audioBuffer = some buf →
      ((handlePlayPause s).2 =
        if s.isPlaying then PlayAction.didStop else PlayAction.didPlay) ∧
      (s.isPlaying = false →
        (handlePlayPause s).1.sources = s.sources ++ [⟨buf, true⟩] ∧
        (handlePlayPause s).1.isPlaying = true) ∧
      (s.isPlaying = true →
        (handlePlayPause s).1.isPlaying = false ∧
        (handlePlayPause (handlePlayPause s).1).1.isPlaying = true)) ∧
    (∀ s : AppState, sessionInv s → sessionInv (step Event.playPause s)) ∧
    (∀ (s : AppState) (i : Nat), sessionInv s →
      sessionInv (step (Event.sourceEnded i) s)) ∧
    (∀ s : AppState, sessionInv s → ∀ (i j : Nat) (srci srcj : SourceNode),
      s.sources[i]? = some srci → s.sources[j]? = some srcj →
      srci.emitting = true → srcj.emitting = true → i = j) := by
  refine ⟨?_, sessionInv_playPause, sessionInv_sourceEnded, ?_⟩
  · intro s c buf hc hb
    refine ⟨?_, ?_, ?_⟩
    · cases hp : s.isPlaying with
      | true =>
        rw [handlePlayPause_stop s c buf hc hb hp]
        rfl
      | false =>
        rw [handlePlayPause_play s c buf hc hb hp]
        rfl
    · intro hp
      rw [handlePlayPause_play s c buf hc hb hp]
      exact ⟨rfl, rfl⟩
    · intro hp
      rw [handlePlayPause_stop s c buf hc hb hp]
      refine ⟨rfl, ?_⟩
      rw [handlePlayPause_play
        { s with sources := stopCurrentSource s, isPlaying := false } c buf hc hb rfl]
  · intro s h i j srci srcj hi hj hei hej
    have h1 := (h i srci hi hei).2
    have h2 := (h j srcj hj hej).2
    rw [h1] at h2
    injection h2 with h2

/-- **C2 witness.** From the concrete playing state `sendTestState`
(context live, buffer stored, one emitting source), the toggle stops,
then plays again, and the invariant survives a toggle. -/
theorem togglePlayPause_exactly_one_witness :
    (handlePlayPause sendTestState).2 = PlayAction.didStop ∧
    (handlePlayPause sendTestState).1.isPlaying = false ∧
    (handlePlayPause (handlePlayPause sendTestState).1).1.isPlaying = true ∧
    sessionInv (step Event.playPause sendTestState) := by
  have hA := togglePlayPause_exactly_one.1 sendTestState ⟨24000⟩ sampleBuffer rfl rfl
  have hInv : sessionInv sendTestState := by
    intro i src hget hemit
    cases i with
    | zero => exact ⟨rfl, rfl⟩
    | succ n => simp [sendTestState] at hget
  refine ⟨?_, (hA.2.2 rfl).1, (hA.2.2 rfl).2,
    togglePlayPause_exactly_one.2.1 sendTestState hInv⟩
  simpa using hA.1
